import Mathlib

/-!
Verification of the h3o-viewer feature-collection builder (src/lib.rs).

The library turns groups of H3 cell indexes plus display settings into a
GeoJSON feature collection embedded in an HTML document.  The hexagonal-grid
math itself (the h3o crate) is an external capability; it is modelled here by
an explicit `Adapter` record of the operations the library calls on it:
resolution, display string, boundary edges, edge length, and geometry
conversion for cells, edges and homogeneous cell groups.
-/

namespace H3oViewerModel

/-- h3o `CellIndex`: an opaque identifier with a total order (a 64-bit value
in the source); modelled as a natural number. -/
abbrev CellIndex := Nat

/-- A small stand-in for the geometry values produced by the adapter; the
library never inspects them, it only stores them in features. -/
abbrev Geometry := Nat

/-- h3o `DirectedEdgeIndex`: determined by its origin and destination cell. -/
structure DirectedEdgeIndex where
  origin : CellIndex
  destination : CellIndex
deriving DecidableEq, Repr

/-- `DirectedEdgeIndex::cells()`: the `(origin, destination)` pair. -/
def DirectedEdgeIndex.cells (e : DirectedEdgeIndex) : CellIndex × CellIndex :=
  (e.origin, e.destination)

/-- `fn inverse` from src/lib.rs: `(edge.destination(), edge.origin())`. -/
def inverse (e : DirectedEdgeIndex) : CellIndex × CellIndex :=
  (e.destination, e.origin)

/-- h3o `LatLng`, as a (lat, lng) pair of rationals. -/
abbrev LatLng := ℚ × ℚ

/-- The external geometry capability (the h3o crate and the geojson crate),
out of scope per the spec.  `groupGeo` is `Vec<CellIndex>::to_geojson`, which
can fail (e.g. on a resolution mismatch); `cellGeo` and `edgeGeo` cannot fail
(the source unwraps them with "Cannot fail because to_geom cannot fail"). -/
structure Adapter where
  resolution : CellIndex → Nat
  cellToString : CellIndex → String
  edges : CellIndex → List DirectedEdgeIndex
  length_m : DirectedEdgeIndex → ℚ
  cellGeo : CellIndex → Geometry
  edgeGeo : DirectedEdgeIndex → Geometry
  groupGeo : List CellIndex → Except String Geometry

/-- `struct Settings` from src/lib.rs. -/
structure Settings where
  cell_indexes : Bool
  edge_lengths : Bool
  separate_cells : Bool
  cell_resolutions : Bool
  filename : Option String
deriving DecidableEq, Repr

/-- `impl Default for Settings` from src/lib.rs (field for field). -/
def Settings.default : Settings where
  cell_resolutions := false
  cell_indexes := false
  edge_lengths := false
  separate_cells := true
  filename := none

/-- geojson `Feature`, restricted to the fields the library sets: geometry
and a string-valued property map.  `Feature::default()` leaves both `None`. -/
structure Feature where
  geometry : Option Geometry
  properties : Option (List (String × String))
deriving DecidableEq, Repr

/-- `struct H3oViewer` from src/lib.rs. -/
structure H3oViewer where
  cell_groups : List (List CellIndex)
  settings : Settings
  circles : List (LatLng × Nat)

/-- `H3oViewer::for_cells`: one group holding the given cells, default
settings, no circles. -/
def for_cells (cells : List CellIndex) : H3oViewer :=
  { cell_groups := [cells], settings := Settings.default, circles := [] }

/-- `H3oViewer::for_cell_groups`. -/
def for_cell_groups (groups : List (List CellIndex)) : H3oViewer :=
  { cell_groups := groups, settings := Settings.default, circles := [] }

/-- `H3oViewer::with_cell_indexes`. -/
def with_cell_indexes (v : H3oViewer) (set_on : Bool) : H3oViewer :=
  { v with settings := { v.settings with cell_indexes := set_on } }

/-- `H3oViewer::with_edge_lengths`. -/
def with_edge_lengths (v : H3oViewer) (set_on : Bool) : H3oViewer :=
  { v with settings := { v.settings with edge_lengths := set_on } }

/-- `H3oViewer::with_cell_resolutions`. -/
def with_cell_resolutions (v : H3oViewer) (set_on : Bool) : H3oViewer :=
  { v with settings := { v.settings with cell_resolutions := set_on } }

/-- `H3oViewer::render_cells_separately`. -/
def render_cells_separately (v : H3oViewer) (set_on : Bool) : H3oViewer :=
  { v with settings := { v.settings with separate_cells := set_on } }

/-- `H3oViewer::custom_filename`. -/
def custom_filename (v : H3oViewer) (filename : String) : H3oViewer :=
  { v with settings := { v.settings with filename := some filename } }

/-- `H3oViewer::draw_circle`. -/
def draw_circle (v : H3oViewer) (center : LatLng) (radius : Nat) : H3oViewer :=
  { v with circles := v.circles ++ [(center, radius)] }

/-- `H3oViewer::get_cell_properties`: build the label from the resolution
part, the separator (only when both parts are shown) and the index part,
then insert it under the `"label"` key. -/
def get_cell_properties (a : Adapter) (s : Settings) (cell : CellIndex) :
    List (String × String) :=
  let val := ""
  let val := if s.cell_resolutions then
      val ++ "Res: " ++ toString (a.resolution cell) else val
  let val := if s.cell_resolutions && s.cell_indexes then val ++ "<br>" else val
  let val := if s.cell_indexes then val ++ a.cellToString cell else val
  [("label", val)]

/-- The floor of a rational, written the computable way (`q.num / q.den`,
which Mathlib proves equal to `⌊q⌋`). -/
def rfloor (q : ℚ) : ℤ := q.num / q.den

theorem rfloor_eq (q : ℚ) : rfloor q = ⌊q⌋ := Rat.floor_def.symm

/-- Rust `format!("{:.0}", x)` rounds to the nearest integer, ties to even. -/
def roundHalfEven (q : ℚ) : ℤ :=
  if q - rfloor q < 1/2 then rfloor q
  else if (1 : ℚ)/2 < q - rfloor q then rfloor q + 1
  else if rfloor q % 2 = 0 then rfloor q else rfloor q + 1

/-- The digits Rust prints for `format!("{:.0}", x)`. -/
def fmtRound (q : ℚ) : String := toString (roundHalfEven q)

/-- `H3oViewer::get_edge_properties`: lengths above 1000 m are printed in
kilometers, others in meters, both rounded to an integer.  h3o computes
`length_km` and `length_m` from one radian length, so `length_km` is
`length_m / 1000`. -/
def get_edge_properties (a : Adapter) (edge : DirectedEdgeIndex) :
    List (String × String) :=
  let length :=
    if a.length_m edge > 1000 then fmtRound (a.length_m edge / 1000) ++ " km"
    else fmtRound (a.length_m edge) ++ " m"
  [("label", length)]

/-- `H3oViewer::cell_to_feature`. -/
def cell_to_feature (a : Adapter) (s : Settings) (cell : CellIndex) : Feature :=
  { geometry := some (a.cellGeo cell)
    properties := some (get_cell_properties a s cell) }

/-- `H3oViewer::edge_to_feature`. -/
def edge_to_feature (a : Adapter) (edge : DirectedEdgeIndex) : Feature :=
  { geometry := some (a.edgeGeo edge)
    properties := some (get_edge_properties a edge) }

/-- Body of the inner edge loop of `cells_to_features`: skip the edge when
`edges_seen` contains its inverse, otherwise push its feature and record
`edge.cells()`.  The state is (feature list, edges_seen). -/
def edge_step (a : Adapter)
    (st : List Feature × List (CellIndex × CellIndex))
    (edge : DirectedEdgeIndex) :
    List Feature × List (CellIndex × CellIndex) :=
  if inverse edge ∈ st.2 then st
  else (st.1 ++ [edge_to_feature a edge], st.2 ++ [edge.cells])

/-- Body of the outer cell loop of `cells_to_features` in separate-cells
mode: push the cell feature, then (when edge lengths are on) run the edge
loop over the cell's edges. -/
def separateStep (a : Adapter) (s : Settings)
    (st : List Feature × List (CellIndex × CellIndex))
    (cell : CellIndex) :
    List Feature × List (CellIndex × CellIndex) :=
  let st := (st.1 ++ [cell_to_feature a s cell], st.2)
  if s.edge_lengths then (a.edges cell).foldl (edge_step a) st else st

/-- Rust `Vec::dedup`: drop consecutive repeated elements. -/
def dedupConsec : List CellIndex → List CellIndex
  | [] => []
  | [x] => [x]
  | x :: y :: rest =>
      if x = y then dedupConsec (y :: rest) else x :: dedupConsec (y :: rest)

/-- `cell_group.sort(); cell_group.dedup();` from the grouped branch.  Rust's
`sort` is a comparison sort; on the linear order of cell indexes the sorted
permutation is unique, so insertion sort models it. -/
def sortDedup (g : List CellIndex) : List CellIndex :=
  dedupConsec (List.insertionSort (· ≤ ·) g)

/-- The grouped branch of `cells_to_features`: for each group, sort, dedup,
ask the adapter for the merged geometry, and emit a `Feature` with that
geometry and all other fields left at `Feature::default()` (no properties).
The source unwraps the adapter result with `expect`, so an adapter failure
aborts the whole render; that abort is modelled as the error value. -/
def collectFeatures (a : Adapter) : List (List CellIndex) → Except String (List Feature)
  | [] => .ok []
  | g :: gs =>
      match a.groupGeo (sortDedup g) with
      | .error e => .error e
      | .ok geometry =>
          match collectFeatures a gs with
          | .error e => .error e
          | .ok rest =>
              .ok ({ geometry := some geometry, properties := none } :: rest)

/-- `H3oViewer::cells_to_features`: separate-cells mode when the flag is set
and exactly one group was supplied, grouped mode otherwise. -/
def cells_to_features (a : Adapter) (v : H3oViewer) : Except String (List Feature) :=
  if v.settings.separate_cells && v.cell_groups.length == 1 then
    .ok ((v.cell_groups.headD []).foldl (separateStep a v.settings) ([], [])).1
  else
    collectFeatures a v.cell_groups

/-- `H3oViewer::generate_circles`: one Leaflet circle statement per overlay,
in input order. -/
def generate_circles (v : H3oViewer) : String :=
  String.join (v.circles.map fun c =>
    "L.circle([" ++ toString c.1.1 ++ ", " ++ toString c.1.2 ++
      "], \x7bradius: " ++ toString c.2 ++
      ", fill: false, color: \x27#ee0000\x27\x7d).addTo(map);\n")

/-- `H3oViewer::generate_html`.  Modelled from the spec: the fixed template
(templates/viewer.html, not under src/) is an arbitrary string `tmpl`, and
the GeoJSON serialization of a feature collection (the geojson crate) is an
arbitrary function `ser`; the source substitutes the serialized features and
the circle statements into the two placeholders. -/
def generate_html (a : Adapter) (tmpl : String) (ser : List Feature → String)
    (v : H3oViewer) : Except String String :=
  match cells_to_features a v with
  | .error e => .error e
  | .ok geometry =>
      let geojson := ser geometry
      let circles := generate_circles v
      .ok ((tmpl.replace "\x7b\x7bgeojson\x7d\x7d" geojson).replace
        "\x7b\x7bcircles\x7d\x7d" circles)

/-! ### Derived definitions used by the claims -/

/-- The unordered endpoint pair behind a directed pair: the claims'
"undirected boundary edge". -/
def upair (p : CellIndex × CellIndex) : CellIndex × CellIndex :=
  if p.1 ≤ p.2 then p else (p.2, p.1)

/-- Every directed boundary edge of every cell of the group, in scan order. -/
def allEdges (a : Adapter) (cells : List CellIndex) : List DirectedEdgeIndex :=
  (cells.map a.edges).flatten

/-- The number of unique undirected boundary edges among the input cells. -/
def uniqueUndirectedEdgeCount (a : Adapter) (cells : List CellIndex) : Nat :=
  (((allEdges a cells).map fun e => upair e.cells).dedup).length

/-- The directed edges the inner loop of `cells_to_features` emits, given the
starting `edges_seen` list. -/
def emittedEdges (seen : List (CellIndex × CellIndex)) :
    List DirectedEdgeIndex → List DirectedEdgeIndex
  | [] => []
  | e :: es =>
      if inverse e ∈ seen then emittedEdges seen es
      else e :: emittedEdges (seen ++ [e.cells]) es

/-- Whether all cells of a group share one resolution (the precondition of
h3o's `to_geojson` on a cell collection). -/
def homogeneous (res : CellIndex → Nat) : List CellIndex → Bool
  | [] => true
  | c :: cs => cs.all fun d => res d == res c

/-- A sample adapter with a constant edge length, used to instantiate
hypothesis-bearing theorems at concrete inputs. -/
def constAdapter (len : ℚ) : Adapter where
  resolution := fun _ => 9
  cellToString := fun c => toString c
  edges := fun _ => []
  length_m := fun _ => len
  cellGeo := fun c => c
  edgeGeo := fun _ => 50
  groupGeo := fun _ => .ok 0

/-- Sample adapter for two adjacent cells 0 and 1 sharing one physical
boundary; cell geometries are the cell number, edge geometries are 50. -/
def cexAdapter : Adapter where
  resolution := fun _ => 9
  cellToString := fun c => toString c
  edges := fun c => if c = 0 then [⟨0, 1⟩] else if c = 1 then [⟨1, 0⟩] else []
  length_m := fun _ => 500
  cellGeo := fun c => c
  edgeGeo := fun _ => 50
  groupGeo := fun _ => .ok 99

/-- Separate-cells settings with edge lengths switched on. -/
def sepEdgeSettings : Settings :=
  { Settings.default with edge_lengths := true }

/-- A single group in which cell 0 appears twice, rendered separately with
edge lengths. -/
def cexViewer : H3oViewer :=
  { cell_groups := [[0, 0]], settings := sepEdgeSettings, circles := [] }

/-- Sample adapter whose group conversion fails exactly when the group mixes
resolutions (each cell number is its own resolution). -/
def mixedResAdapter : Adapter where
  resolution := fun c => c
  cellToString := fun c => toString c
  edges := fun _ => []
  length_m := fun _ => 500
  cellGeo := fun c => c
  edgeGeo := fun _ => 50
  groupGeo := fun g =>
    if homogeneous (fun c => c) g then .ok 99 else .error "mixed resolutions"

/-- A grouped-mode viewer holding one group with two resolutions. -/
def mixedViewer : H3oViewer :=
  { cell_groups := [[0, 1]]
    settings := { Settings.default with separate_cells := false }
    circles := [] }

/-! ### Claim C3 -/

/-- Claim C3: the claim states the default configuration has
`show_resolution=true`; the source's `Settings::default` sets
`cell_resolutions: false`, although the doc comment on
`with_cell_resolutions` says "Default: on".  This theorem evaluates the
code's default record, exhibiting the divergence (all other fields agree
with the claim). -/
theorem C3_default_settings :
    Settings.default.cell_resolutions = false ∧
    Settings.default.cell_indexes = false ∧
    Settings.default.edge_lengths = false ∧
    Settings.default.separate_cells = true ∧
    Settings.default.filename = none :=
  ⟨rfl, rfl, rfl, rfl, rfl⟩

/-! ### Claim C5 -/

/-- Claim C5: in separate-cells mode the cell label is
`"Res: {resolution}<br>{index}"` when both flags are set, and just the
corresponding half, with no separator, when only one flag is set. -/
theorem C5_cell_label (a : Adapter) (s : Settings) (cell : CellIndex) :
    (s.cell_resolutions = true → s.cell_indexes = true →
      get_cell_properties a s cell =
        [("label", "Res: " ++ toString (a.resolution cell) ++ "<br>" ++
          a.cellToString cell)]) ∧
    (s.cell_resolutions = true → s.cell_indexes = false →
      get_cell_properties a s cell =
        [("label", "Res: " ++ toString (a.resolution cell))]) ∧
    (s.cell_resolutions = false → s.cell_indexes = true →
      get_cell_properties a s cell = [("label", a.cellToString cell)]) := by
  refine ⟨?_, ?_, ?_⟩ <;> intro h1 h2 <;>
    simp [get_cell_properties, h1, h2, String.append_assoc]

/-! ### Claim C4 -/

/-- The value Rust prints for `{:.0}` is within one half of the argument. -/
theorem roundHalfEven_close (q : ℚ) : |(roundHalfEven q : ℚ) - q| ≤ 1/2 := by
  unfold roundHalfEven
  rw [rfloor_eq]
  have h1 : (⌊q⌋ : ℚ) ≤ q := Int.floor_le q
  have h2 : q < ⌊q⌋ + 1 := Int.lt_floor_add_one q
  by_cases hlt : q - ⌊q⌋ < 1/2
  · rw [if_pos hlt, abs_le]
    constructor <;> linarith
  · rw [if_neg hlt]
    by_cases hgt : (1 : ℚ)/2 < q - ⌊q⌋
    · rw [if_pos hgt]
      push_cast
      rw [abs_le]
      constructor <;> linarith
    · rw [if_neg hgt]
      have heq : q - ⌊q⌋ = 1/2 := le_antisymm (not_lt.1 hgt) (not_lt.1 hlt)
      by_cases hev : ⌊q⌋ % 2 = 0
      · rw [if_pos hev, abs_le]
        constructor <;> linarith
      · rw [if_neg hev]
        push_cast
        rw [abs_le]
        constructor <;> linarith

/-- Rounding leaves integers unchanged. -/
theorem roundHalfEven_intCast (n : ℤ) : roundHalfEven (n : ℚ) = n := by
  unfold roundHalfEven
  rw [rfloor_eq, Int.floor_intCast, if_pos]
  norm_num

theorem roundHalfEven_threeHalves : roundHalfEven ((1500 : ℚ)/1000) = 2 := by
  have h15 : ((1500 : ℚ)/1000) = 3/2 := by norm_num
  have hf : ⌊((1500 : ℚ)/1000)⌋ = 1 := by
    rw [h15, Int.floor_eq_iff]
    norm_num
  unfold roundHalfEven
  rw [rfloor_eq, hf, h15, if_neg (by norm_num), if_neg (by norm_num),
    if_neg (by norm_num)]
  norm_num

/-- Claim C4: edge labels use kilometers with a "km" suffix exactly when the
length strictly exceeds 1000 m, meters with an "m" suffix otherwise, the
number rounded to the nearest integer (ties to even, as Rust's `{:.0}`
does); 999 m gives "999 m", 1500 m gives "2 km", and exactly 1000 m stays
in meters. -/
theorem C4_edge_length_format (a : Adapter) (edge : DirectedEdgeIndex) :
    (1000 < a.length_m edge →
      ∃ n : ℤ, get_edge_properties a edge = [("label", toString n ++ " km")] ∧
        |(n : ℚ) - a.length_m edge / 1000| ≤ 1/2) ∧
    (a.length_m edge ≤ 1000 →
      ∃ n : ℤ, get_edge_properties a edge = [("label", toString n ++ " m")] ∧
        |(n : ℚ) - a.length_m edge| ≤ 1/2) ∧
    (a.length_m edge = 999 →
      get_edge_properties a edge = [("label", "999 m")]) ∧
    (a.length_m edge = 1500 →
      get_edge_properties a edge = [("label", "2 km")]) ∧
    (a.length_m edge = 1000 →
      get_edge_properties a edge = [("label", "1000 m")]) := by
  refine ⟨?_, ?_, ?_, ?_, ?_⟩
  · intro h
    refine ⟨roundHalfEven (a.length_m edge / 1000), ?_, roundHalfEven_close _⟩
    simp [get_edge_properties, fmtRound, if_pos h]
  · intro h
    refine ⟨roundHalfEven (a.length_m edge), ?_, roundHalfEven_close _⟩
    simp [get_edge_properties, fmtRound, if_neg (not_lt.2 h)]
  · intro h
    have : roundHalfEven ((999 : ℚ)) = 999 := by
      have := roundHalfEven_intCast 999
      norm_num at this
      exact this
    simp [get_edge_properties, fmtRound, h, this]
    rfl
  · intro h
    simp [get_edge_properties, fmtRound, h, roundHalfEven_threeHalves]
    rfl
  · intro h
    have : roundHalfEven ((1000 : ℚ)) = 1000 := by
      have := roundHalfEven_intCast 1000
      norm_num at this
      exact this
    simp [get_edge_properties, fmtRound, h, this]
    rfl

theorem C5_cell_label_witness :
    get_cell_properties (constAdapter 0)
      { Settings.default with cell_resolutions := true, cell_indexes := true }
      7 = [("label", "Res: 9<br>7")] := by
  have h := (C5_cell_label (constAdapter 0)
    { Settings.default with cell_resolutions := true, cell_indexes := true } 7).1
    rfl rfl
  simpa [constAdapter] using h

theorem C4_edge_length_format_witness :
    get_edge_properties (constAdapter 999) ⟨0, 1⟩ = [("label", "999 m")] ∧
    get_edge_properties (constAdapter 1500) ⟨0, 1⟩ = [("label", "2 km")] ∧
    get_edge_properties (constAdapter 1000) ⟨0, 1⟩ = [("label", "1000 m")] :=
  ⟨(C4_edge_length_format (constAdapter 999) ⟨0, 1⟩).2.2.1 rfl,
   (C4_edge_length_format (constAdapter 1500) ⟨0, 1⟩).2.2.2.1 rfl,
   (C4_edge_length_format (constAdapter 1000) ⟨0, 1⟩).2.2.2.2 rfl⟩

/-! ### Structure of the separate-cells loop -/

theorem upair_comm (c d : CellIndex) : upair (c, d) = upair (d, c) := by
  by_cases h1 : c ≤ d
  · by_cases h2 : d ≤ c
    · have h3 : c = d := le_antisymm h1 h2
      subst h3
      rfl
    · simp [upair, h1, h2]
  · have h2 : d ≤ c := le_of_not_le h1
    simp [upair, h1, h2]

theorem upair_inverse (e : DirectedEdgeIndex) :
    upair (inverse e) = upair e.cells := by
  simpa [inverse, DirectedEdgeIndex.cells] using
    upair_comm e.destination e.origin

theorem upair_fiber {p : CellIndex × CellIndex} {c d : CellIndex}
    (h : upair p = upair (c, d)) : p = (c, d) ∨ p = (d, c) := by
  rcases p with ⟨x, y⟩
  unfold upair at h
  split_ifs at h with h1 h2 h2 <;>
    (simp only [Prod.mk.injEq] at h
     obtain ⟨rfl, rfl⟩ := h
     simp)

theorem edge_foldl_eq (a : Adapter) :
    ∀ (es : List DirectedEdgeIndex)
      (st : List Feature × List (CellIndex × CellIndex)),
    es.foldl (edge_step a) st =
      (st.1 ++ (emittedEdges st.2 es).map (edge_to_feature a),
       st.2 ++ (emittedEdges st.2 es).map DirectedEdgeIndex.cells) := by
  intro es
  induction es with
  | nil => intro st; simp [emittedEdges]
  | cons e es ih =>
      intro st
      by_cases h : inverse e ∈ st.2
      · rw [List.foldl_cons]
        have hstep : edge_step a st e = st := by simp [edge_step, h]
        rw [hstep, ih st]
        simp [emittedEdges, h]
      · rw [List.foldl_cons]
        have hstep : edge_step a st e =
            (st.1 ++ [edge_to_feature a e], st.2 ++ [e.cells]) := by
          simp [edge_step, h]
        rw [hstep, ih]
        simp [emittedEdges, h, List.append_assoc]

theorem emittedEdges_append :
    ∀ (es₁ es₂ : List DirectedEdgeIndex) (seen : List (CellIndex × CellIndex)),
    emittedEdges seen (es₁ ++ es₂) =
      emittedEdges seen es₁ ++
        emittedEdges (seen ++ (emittedEdges seen es₁).map
          DirectedEdgeIndex.cells) es₂ := by
  intro es₁
  induction es₁ with
  | nil => intro es₂ seen; simp [emittedEdges]
  | cons e es ih =>
      intro es₂ seen
      by_cases h : inverse e ∈ seen
      · simp [emittedEdges, h, ih]
      · simp [emittedEdges, h, ih, List.append_assoc]

theorem sep_foldl_eq (a : Adapter) (s : Settings) (hlen : s.edge_lengths = true) :
    ∀ (cells : List CellIndex)
      (st : List Feature × List (CellIndex × CellIndex)),
    (cells.foldl (separateStep a s) st).2 =
      st.2 ++ (emittedEdges st.2 (allEdges a cells)).map
        DirectedEdgeIndex.cells ∧
    (cells.foldl (separateStep a s) st).1.length =
      st.1.length + cells.length +
        (emittedEdges st.2 (allEdges a cells)).length := by
  intro cells
  induction cells with
  | nil => intro st; simp [allEdges, emittedEdges]
  | cons c cells ih =>
      intro st
      have hstep : separateStep a s st c =
          ((st.1 ++ [cell_to_feature a s c]) ++
             (emittedEdges st.2 (a.edges c)).map (edge_to_feature a),
           st.2 ++ (emittedEdges st.2 (a.edges c)).map
             DirectedEdgeIndex.cells) := by
        unfold separateStep
        rw [hlen]
        simp only [if_true]
        exact edge_foldl_eq a (a.edges c) (st.1 ++ [cell_to_feature a s c], st.2)
      rw [List.foldl_cons, hstep]
      rcases ih ((st.1 ++ [cell_to_feature a s c]) ++
          (emittedEdges st.2 (a.edges c)).map (edge_to_feature a),
        st.2 ++ (emittedEdges st.2 (a.edges c)).map DirectedEdgeIndex.cells)
        with ⟨h2, h1⟩
      have hall : allEdges a (c :: cells) = a.edges c ++ allEdges a cells := by
        simp [allEdges]
      constructor
      · rw [h2, hall, emittedEdges_append]
        simp [List.append_assoc]
      · rw [h1, hall, emittedEdges_append]
        simp [List.length_append, List.length_map]
        omega

theorem sep_foldl_mem (a : Adapter) (s : Settings) :
    ∀ (cells : List CellIndex)
      (st : List Feature × List (CellIndex × CellIndex)) (f : Feature),
    f ∈ (cells.foldl (separateStep a s) st).1 →
      f ∈ st.1 ∨ (∃ c, f = cell_to_feature a s c) ∨
        ∃ e, f = edge_to_feature a e := by
  intro cells
  induction cells with
  | nil => intro st f hf; exact Or.inl hf
  | cons c cells ih =>
      intro st f hf
      rw [List.foldl_cons] at hf
      rcases ih (separateStep a s st c) f hf with h | h | h
      · by_cases hl : s.edge_lengths = true
        · rw [show separateStep a s st c =
              ((st.1 ++ [cell_to_feature a s c]) ++
                 (emittedEdges st.2 (a.edges c)).map (edge_to_feature a),
               st.2 ++ (emittedEdges st.2 (a.edges c)).map
                 DirectedEdgeIndex.cells) from by
            unfold separateStep
            rw [hl]
            simp only [if_true]
            exact edge_foldl_eq a (a.edges c)
              (st.1 ++ [cell_to_feature a s c], st.2)] at h
          simp only [List.mem_append, List.mem_singleton, List.mem_map] at h
          rcases h with (h | rfl) | ⟨e, _, rfl⟩
          · exact Or.inl h
          · exact Or.inr (Or.inl ⟨c, rfl⟩)
          · exact Or.inr (Or.inr ⟨e, rfl⟩)
        · have hl' : s.edge_lengths = false := by
            cases hb : s.edge_lengths
            · rfl
            · exact absurd hb hl
          rw [show separateStep a s st c =
              (st.1 ++ [cell_to_feature a s c], st.2) from by
            unfold separateStep
            rw [hl']
            simp] at h
          simp only [List.mem_append, List.mem_singleton] at h
          rcases h with h | rfl
          · exact Or.inl h
          · exact Or.inr (Or.inl ⟨c, rfl⟩)
      · exact Or.inr (Or.inl h)
      · exact Or.inr (Or.inr h)


/-! ### Counting the emitted edges -/

theorem emittedEdges_length_eq :
    ∀ (L : List DirectedEdgeIndex) (S : List (CellIndex × CellIndex)),
    (L.map DirectedEdgeIndex.cells).Nodup →
    (∀ e ∈ L, e.cells ∉ S) →
    (emittedEdges S L).length =
      ((L.map fun e => upair e.cells).toFinset \
        ((S.map upair).toFinset)).card := by
  intro L
  induction L with
  | nil => intro S _ _; simp [emittedEdges]
  | cons e es ih =>
      intro S hnd hS
      have hnd1 : e.cells ∉ es.map DirectedEdgeIndex.cells :=
        (List.nodup_cons.1 (by simpa using hnd)).1
      have hnd2 : (es.map DirectedEdgeIndex.cells).Nodup :=
        (List.nodup_cons.1 (by simpa using hnd)).2
      have hS1 : e.cells ∉ S := hS e (List.mem_cons_self e es)
      have hS2 : ∀ e' ∈ es, e'.cells ∉ S :=
        fun e' he' => hS e' (List.mem_cons_of_mem e he')
      by_cases h : inverse e ∈ S
      · have hmem : upair e.cells ∈ (S.map upair).toFinset := by
          rw [List.mem_toFinset]
          exact (upair_inverse e) ▸ List.mem_map_of_mem upair h
        rw [show emittedEdges S (e :: es) = emittedEdges S es from by
          simp [emittedEdges, h]]
        rw [ih S hnd2 hS2]
        congr 1
        rw [show ((e :: es).map fun x => upair x.cells).toFinset =
            insert (upair e.cells) ((es.map fun x => upair x.cells).toFinset)
          from by simp]
        exact (Finset.insert_sdiff_of_mem _ hmem).symm
      · have hnotmem : upair e.cells ∉ (S.map upair).toFinset := by
          rw [List.mem_toFinset, List.mem_map]
          rintro ⟨p, hp, hpe⟩
          rcases upair_fiber (c := e.origin) (d := e.destination)
              (by simpa [DirectedEdgeIndex.cells] using hpe) with h1 | h1
          · exact hS1 (by simpa [DirectedEdgeIndex.cells, h1] using hp)
          · exact h (by simpa [inverse, h1] using hp)
        rw [show emittedEdges S (e :: es) =
            e :: emittedEdges (S ++ [e.cells]) es from by
          simp [emittedEdges, h]]
        have hS2' : ∀ e' ∈ es, e'.cells ∉ S ++ [e.cells] := by
          intro e' he'
          rw [List.mem_append, List.mem_singleton]
          rintro (hc | hc)
          · exact hS2 e' he' hc
          · exact hnd1 (hc ▸ List.mem_map_of_mem DirectedEdgeIndex.cells he')
        have hseen : (((S ++ [e.cells]).map upair).toFinset :
            Finset (CellIndex × CellIndex)) =
            insert (upair e.cells) ((S.map upair).toFinset) := by
          simp [List.toFinset_append, Finset.union_comm, Finset.insert_eq]
        rw [List.length_cons, ih (S ++ [e.cells]) hnd2 hS2', hseen]
        rw [show ((e :: es).map fun x => upair x.cells).toFinset =
            insert (upair e.cells) ((es.map fun x => upair x.cells).toFinset)
          from by simp]
        rw [Finset.insert_sdiff_of_not_mem _ hnotmem, Finset.sdiff_insert]
        set t := (es.map fun x => upair x.cells).toFinset \
          (S.map upair).toFinset with ht
        by_cases hu : upair e.cells ∈ t
        · rw [Finset.card_insert_of_mem hu]
          have := Finset.card_erase_add_one hu
          omega
        · rw [Finset.card_insert_of_not_mem hu, Finset.erase_eq_of_not_mem hu]


/-! ### Claim C1 -/

theorem allEdges_cells_nodup (a : Adapter) (cells : List CellIndex)
    (hnd : cells.Nodup)
    (horig : ∀ c, ∀ e ∈ a.edges c, e.origin = c)
    (hdst : ∀ c, ((a.edges c).map DirectedEdgeIndex.destination).Nodup) :
    ((allEdges a cells).map DirectedEdgeIndex.cells).Nodup := by
  unfold allEdges
  rw [List.map_flatten, List.nodup_flatten]
  constructor
  · intro l hl
    rcases List.mem_map.1 hl with ⟨es, hes, rfl⟩
    rcases List.mem_map.1 hes with ⟨c, _, rfl⟩
    apply List.Nodup.of_map (f := Prod.snd)
    rw [List.map_map]
    exact hdst c
  · rw [List.pairwise_map, List.pairwise_map]
    refine hnd.imp ?_
    intro c c' hne
    intro p hp hp'
    rcases List.mem_map.1 hp with ⟨e, he, rfl⟩
    rcases List.mem_map.1 hp' with ⟨e', he', hee⟩
    have h1 : e.origin = c := horig c e he
    have h2 : e'.origin = c' := horig c' e' he'
    have h3 : e'.origin = e.origin := congrArg Prod.fst hee
    apply hne
    rw [← h1, ← h3]
    exact h2

/-- Claim C1, amended: the claim as stated fails when one cell appears more
than once in the group (see the counterexample); for a separate-cells render
with edge lengths of a group whose cells are pairwise distinct, the number
of edge features is exactly the number of unique undirected boundary edges.
The adapter hypotheses record two facts of the real h3o capability: a cell's
boundary edges originate at that cell, and their destinations are pairwise
distinct.  Since every cell contributes exactly one cell feature, the edge
feature count is the output length minus the cell count. -/
theorem C1_separate_edge_dedup (a : Adapter) (s : Settings)
    (cells : List CellIndex) (cs : List (LatLng × Nat))
    (hsep : s.separate_cells = true) (hlen : s.edge_lengths = true)
    (hnd : cells.Nodup)
    (horig : ∀ c, ∀ e ∈ a.edges c, e.origin = c)
    (hdst : ∀ c, ((a.edges c).map DirectedEdgeIndex.destination).Nodup) :
    ∃ fs, cells_to_features a
        { cell_groups := [cells], settings := s, circles := cs } = .ok fs ∧
      fs.length = cells.length + uniqueUndirectedEdgeCount a cells := by
  refine ⟨(cells.foldl (separateStep a s) ([], [])).1,
    by simp [cells_to_features, hsep], ?_⟩
  rcases sep_foldl_eq a s hlen cells ([], []) with ⟨_, hlen1⟩
  rw [hlen1]
  rw [emittedEdges_length_eq (allEdges a cells) []
    (allEdges_cells_nodup a cells hnd horig hdst) (by simp)]
  simp [uniqueUndirectedEdgeCount, List.card_toFinset]

theorem C1_separate_edge_dedup_witness :
    ∃ fs, cells_to_features cexAdapter
        { cell_groups := [[0, 1]], settings := sepEdgeSettings,
          circles := [] } = .ok fs ∧
      fs.length = ([0, 1] : List CellIndex).length +
        uniqueUndirectedEdgeCount cexAdapter [0, 1] :=
  C1_separate_edge_dedup cexAdapter sepEdgeSettings [0, 1] [] rfl rfl
    (by decide)
    (by intro c e he
        simp only [cexAdapter] at he
        split_ifs at he with h0 h1
        · subst h0
          simp only [List.mem_singleton] at he
          subst he
          rfl
        · subst h1
          simp only [List.mem_singleton] at he
          subst he
          rfl
        · simp at he)
    (by intro c
        simp only [cexAdapter]
        split_ifs <;> simp)

/-- Claim C1, counterexample: with the single group `[0, 0]` (cell 0 listed
twice) and edge lengths on, the edge between cells 0 and 1 contributes two
features (the dedup check looks only for the inverse pair, which is never
recorded), while the number of unique undirected boundary edges among the
input cells is 1. -/
theorem C1_counterexample :
    cells_to_features cexAdapter cexViewer =
      .ok [cell_to_feature cexAdapter sepEdgeSettings 0,
           edge_to_feature cexAdapter ⟨0, 1⟩,
           cell_to_feature cexAdapter sepEdgeSettings 0,
           edge_to_feature cexAdapter ⟨0, 1⟩] ∧
    uniqueUndirectedEdgeCount cexAdapter [0, 0] = 1 :=
  ⟨rfl, by decide⟩


/-! ### The grouped branch and the canonical group order -/

theorem dedupConsec_sublist :
    ∀ l : List CellIndex, List.Sublist (dedupConsec l) l := by
  intro l
  induction l with
  | nil => simp [dedupConsec]
  | cons a l ih =>
      cases l with
      | nil => simp [dedupConsec]
      | cons b t =>
          by_cases hab : a = b
          · rw [show dedupConsec (a :: b :: t) = dedupConsec (b :: t) from by
              simp [dedupConsec, hab]]
            exact ih.cons a
          · rw [show dedupConsec (a :: b :: t) = a :: dedupConsec (b :: t)
              from by simp [dedupConsec, hab]]
            exact ih.cons₂ a

theorem mem_dedupConsec {x : CellIndex} :
    ∀ {l : List CellIndex}, x ∈ dedupConsec l ↔ x ∈ l := by
  intro l
  induction l with
  | nil => simp [dedupConsec]
  | cons a l ih =>
      cases l with
      | nil => simp [dedupConsec]
      | cons b t =>
          by_cases hab : a = b
          · subst hab
            rw [show dedupConsec (a :: a :: t) = dedupConsec (a :: t) from by
              simp [dedupConsec]]
            rw [ih]
            simp [List.mem_cons]
          · rw [show dedupConsec (a :: b :: t) = a :: dedupConsec (b :: t)
              from by simp [dedupConsec, hab]]
            simp [List.mem_cons, ih]

theorem dedupConsec_nodup :
    ∀ l : List CellIndex, l.Sorted (· ≤ ·) → (dedupConsec l).Nodup := by
  intro l
  induction l with
  | nil => intro _; simp [dedupConsec]
  | cons a l ih =>
      cases l with
      | nil => intro _; simp [dedupConsec]
      | cons b t =>
          intro hs
          rcases List.sorted_cons.1 hs with ⟨hab, hs'⟩
          by_cases heq : a = b
          · rw [show dedupConsec (a :: b :: t) = dedupConsec (b :: t) from by
              simp [dedupConsec, heq]]
            exact ih hs'
          · rw [show dedupConsec (a :: b :: t) = a :: dedupConsec (b :: t)
              from by simp [dedupConsec, heq]]
            rw [List.nodup_cons]
            refine ⟨?_, ih hs'⟩
            rw [mem_dedupConsec]
            intro hmem
            rcases List.mem_cons.1 hmem with h | h
            · exact heq h
            · have h1 : a ≤ b := hab b (List.mem_cons_self b t)
              have h2 : b ≤ a := (List.sorted_cons.1 hs').1 a h
              exact heq (le_antisymm h1 h2)

theorem mem_sortDedup {x : CellIndex} {g : List CellIndex} :
    x ∈ sortDedup g ↔ x ∈ g := by
  rw [show sortDedup g = dedupConsec (List.insertionSort (· ≤ ·) g) from rfl]
  rw [mem_dedupConsec]
  exact (List.perm_insertionSort (· ≤ ·) g).mem_iff

theorem sortDedup_sorted_nodup (g : List CellIndex) :
    (sortDedup g).Sorted (· ≤ ·) ∧ (sortDedup g).Nodup ∧
    (sortDedup g).toFinset = g.toFinset := by
  have hs : (List.insertionSort (· ≤ ·) g).Sorted (· ≤ ·) :=
    List.sorted_insertionSort _ g
  refine ⟨?_, dedupConsec_nodup _ hs, ?_⟩
  · exact List.Pairwise.sublist (dedupConsec_sublist _) hs
  · ext x
    simp only [List.mem_toFinset]
    exact mem_sortDedup

theorem collectFeatures_cons_error (a : Adapter) (g : List CellIndex)
    (gs : List (List CellIndex)) (e : String)
    (hg : a.groupGeo (sortDedup g) = .error e) :
    collectFeatures a (g :: gs) = .error e := by
  show (match a.groupGeo (sortDedup g) with
    | .error e => (.error e : Except String (List Feature))
    | .ok geometry =>
        match collectFeatures a gs with
        | .error e => .error e
        | .ok rest =>
            .ok ({ geometry := some geometry, properties := none } :: rest)) =
    .error e
  rw [hg]

theorem collectFeatures_cons_ok_error (a : Adapter) (g : List CellIndex)
    (gs : List (List CellIndex)) (geo : Geometry) (e : String)
    (hg : a.groupGeo (sortDedup g) = .ok geo)
    (hrest : collectFeatures a gs = .error e) :
    collectFeatures a (g :: gs) = .error e := by
  show (match a.groupGeo (sortDedup g) with
    | .error e => (.error e : Except String (List Feature))
    | .ok geometry =>
        match collectFeatures a gs with
        | .error e => .error e
        | .ok rest =>
            .ok ({ geometry := some geometry, properties := none } :: rest)) =
    .error e
  rw [hg, hrest]

theorem collectFeatures_cons_ok_ok (a : Adapter) (g : List CellIndex)
    (gs : List (List CellIndex)) (geo : Geometry) (rest : List Feature)
    (hg : a.groupGeo (sortDedup g) = .ok geo)
    (hrest : collectFeatures a gs = .ok rest) :
    collectFeatures a (g :: gs) =
      .ok ({ geometry := some geo, properties := none } :: rest) := by
  show (match a.groupGeo (sortDedup g) with
    | .error e => (.error e : Except String (List Feature))
    | .ok geometry =>
        match collectFeatures a gs with
        | .error e => .error e
        | .ok rest =>
            .ok ({ geometry := some geometry, properties := none } :: rest)) =
    .ok ({ geometry := some geo, properties := none } :: rest)
  rw [hg, hrest]

theorem collectFeatures_ok (a : Adapter) :
    ∀ (gs : List (List CellIndex)) (fs : List Feature),
    collectFeatures a gs = .ok fs →
      fs.length = gs.length ∧ (∀ f ∈ fs, f.properties = none) ∧
      ∀ i (h : i < gs.length) (h2 : i < fs.length),
        ∃ geo, a.groupGeo (sortDedup (gs.get ⟨i, h⟩)) = .ok geo ∧
          (fs.get ⟨i, h2⟩).geometry = some geo := by
  intro gs
  induction gs with
  | nil =>
      intro fs h
      simp only [collectFeatures, Except.ok.injEq] at h
      subst h
      refine ⟨rfl, by simp, ?_⟩
      intro i h _
      exact absurd h (by simp)
  | cons g gs ih =>
      intro fs h
      cases hg : a.groupGeo (sortDedup g) with
      | error e =>
          rw [collectFeatures_cons_error a g gs e hg] at h
          exact absurd h (by simp)
      | ok geo =>
          cases hrest : collectFeatures a gs with
          | error e =>
              rw [collectFeatures_cons_ok_error a g gs geo e hg hrest] at h
              exact absurd h (by simp)
          | ok rest =>
              rw [collectFeatures_cons_ok_ok a g gs geo rest hg hrest] at h
              simp only [Except.ok.injEq] at h
              subst h
              rcases ih rest hrest with ⟨hlen, hprops, hidx⟩
              refine ⟨by simp [hlen], ?_, ?_⟩
              · intro f hf
                rcases List.mem_cons.1 hf with rfl | hf
                · rfl
                · exact hprops f hf
              · intro i h1 h2
                cases i with
                | zero => exact ⟨geo, by simpa using hg, rfl⟩
                | succ n =>
                    have hn : n < gs.length := by simpa using h1
                    have hn2 : n < rest.length := by simpa using h2
                    rcases hidx n hn hn2 with ⟨geo', hgeo', hfeat⟩
                    exact ⟨geo', by simpa using hgeo', by simpa using hfeat⟩

theorem collectFeatures_error (a : Adapter) :
    ∀ gs : List (List CellIndex),
    (∃ g ∈ gs, ∃ e, a.groupGeo (sortDedup g) = .error e) →
    ∃ e, collectFeatures a gs = .error e := by
  intro gs
  induction gs with
  | nil =>
      rintro ⟨g, hg, _⟩
      exact absurd hg (by simp)
  | cons g gs ih =>
      rintro ⟨g', hg', e, he⟩
      cases hg : a.groupGeo (sortDedup g) with
      | error e0 => exact ⟨e0, collectFeatures_cons_error a g gs e0 hg⟩
      | ok geo =>
          have hgs : g' ∈ gs := by
            rcases List.mem_cons.1 hg' with rfl | h
            · have hcontra := he.symm.trans hg
              exact absurd hcontra (by simp)
            · exact h
          rcases ih ⟨g', hgs, e, he⟩ with ⟨e1, he1⟩
          exact ⟨e1, collectFeatures_cons_ok_error a g gs geo e1 hg he1⟩

theorem grouped_branch (a : Adapter) (v : H3oViewer)
    (hmode : v.settings.separate_cells = false ∨ v.cell_groups.length ≠ 1) :
    cells_to_features a v = collectFeatures a v.cell_groups := by
  unfold cells_to_features
  rcases hmode with h | h
  · rw [h]
    simp
  · rw [show (v.cell_groups.length == 1) = false from by simpa using h]
    simp

theorem separate_branch (a : Adapter) (v : H3oViewer)
    (h1 : v.settings.separate_cells = true) (h2 : v.cell_groups.length = 1) :
    cells_to_features a v =
      .ok ((v.cell_groups.headD []).foldl
        (separateStep a v.settings) ([], [])).1 := by
  unfold cells_to_features
  rw [h1, h2]
  simp

theorem get_cell_properties_shape (a : Adapter) (s : Settings)
    (cell : CellIndex) :
    ∃ val, get_cell_properties a s cell = [("label", val)] :=
  ⟨_, rfl⟩

theorem get_edge_properties_shape (a : Adapter) (edge : DirectedEdgeIndex) :
    ∃ val, get_edge_properties a edge = [("label", val)] :=
  ⟨_, rfl⟩


/-! ### Claim C2 -/

/-- Claim C2: separate-cells mode is used exactly when the flag is set and
one group was supplied.  Behaviourally: with more than one group, or with
the flag off, the output (when it succeeds) is grouped-mode shaped — one
feature per supplied group, each with no properties — even when the flag
requests separate rendering; with the flag on and exactly one group the call
succeeds and every feature carries a property map. -/
theorem C2_mode_selection (a : Adapter) (v : H3oViewer) :
    (1 < v.cell_groups.length →
      ∀ fs, cells_to_features a v = .ok fs →
        fs.length = v.cell_groups.length ∧ ∀ f ∈ fs, f.properties = none) ∧
    (v.settings.separate_cells = false →
      ∀ fs, cells_to_features a v = .ok fs →
        fs.length = v.cell_groups.length ∧ ∀ f ∈ fs, f.properties = none) ∧
    (v.settings.separate_cells = true → v.cell_groups.length = 1 →
      ∃ fs, cells_to_features a v = .ok fs ∧
        ∀ f ∈ fs, f.properties ≠ none) := by
  refine ⟨?_, ?_, ?_⟩
  · intro hlen fs h
    rw [grouped_branch a v (Or.inr (by omega))] at h
    have hok := collectFeatures_ok a v.cell_groups fs h
    exact ⟨hok.1, hok.2.1⟩
  · intro hsep fs h
    rw [grouped_branch a v (Or.inl hsep)] at h
    have hok := collectFeatures_ok a v.cell_groups fs h
    exact ⟨hok.1, hok.2.1⟩
  · intro hsep hlen
    refine ⟨_, separate_branch a v hsep hlen, ?_⟩
    intro f hf
    rcases sep_foldl_mem a v.settings (v.cell_groups.headD []) ([], []) f hf
      with h | h | h
    · exact absurd h (by simp)
    · rcases h with ⟨c, rfl⟩
      simp [cell_to_feature]
    · rcases h with ⟨e, rfl⟩
      simp [edge_to_feature]

theorem C2_mode_selection_witness :
    (([(⟨some 0, none⟩ : Feature), ⟨some 0, none⟩] : List Feature).length =
        (for_cell_groups [[5], [7]]).cell_groups.length ∧
      ∀ f ∈ ([(⟨some 0, none⟩ : Feature), ⟨some 0, none⟩] : List Feature),
        f.properties = none) ∧
    (([(⟨some 0, none⟩ : Feature)] : List Feature).length =
        (render_cells_separately (for_cells [3]) false).cell_groups.length ∧
      ∀ f ∈ ([(⟨some 0, none⟩ : Feature)] : List Feature),
        f.properties = none) ∧
    ∃ fs, cells_to_features (constAdapter 500) (for_cells [3]) = .ok fs ∧
      ∀ f ∈ fs, f.properties ≠ none := by
  refine ⟨?_, ?_, ?_⟩
  · exact (C2_mode_selection (constAdapter 500) (for_cell_groups [[5], [7]])).1
      (by decide) [⟨some 0, none⟩, ⟨some 0, none⟩] rfl
  · exact (C2_mode_selection (constAdapter 500)
      (render_cells_separately (for_cells [3]) false)).2.1 rfl
      [⟨some 0, none⟩] rfl
  · exact (C2_mode_selection (constAdapter 500) (for_cells [3])).2.2 rfl rfl

/-! ### Claim C6 -/

/-- Claim C6: in grouped mode each group is deduplicated and put in sorted
order before its merged geometry is requested (`sortDedup` is sorted, has no
duplicates, and keeps exactly the group's members), and the output holds one
feature per supplied group, each with no properties and with the geometry
the adapter returned for that group's canonical form. -/
theorem C6_grouped_canonical (a : Adapter) (v : H3oViewer)
    (hmode : v.settings.separate_cells = false ∨ v.cell_groups.length ≠ 1) :
    (∀ fs, cells_to_features a v = .ok fs →
      fs.length = v.cell_groups.length ∧
      (∀ f ∈ fs, f.properties = none) ∧
      ∀ i (h : i < v.cell_groups.length) (h2 : i < fs.length),
        ∃ geo, a.groupGeo (sortDedup (v.cell_groups.get ⟨i, h⟩)) = .ok geo ∧
          (fs.get ⟨i, h2⟩).geometry = some geo) ∧
    ∀ g : List CellIndex, (sortDedup g).Sorted (· ≤ ·) ∧
      (sortDedup g).Nodup ∧ (sortDedup g).toFinset = g.toFinset := by
  refine ⟨?_, fun g => sortDedup_sorted_nodup g⟩
  intro fs h
  rw [grouped_branch a v hmode] at h
  exact collectFeatures_ok a v.cell_groups fs h

theorem C6_grouped_canonical_witness :
    ([(⟨some 0, none⟩ : Feature), ⟨some 0, none⟩] : List Feature).length =
      (for_cell_groups [[5, 5, 9], [7]]).cell_groups.length ∧
    ∀ f ∈ ([(⟨some 0, none⟩ : Feature), ⟨some 0, none⟩] : List Feature),
      f.properties = none := by
  have h := (C6_grouped_canonical (constAdapter 500)
    (for_cell_groups [[5, 5, 9], [7]]) (Or.inr (by decide))).1
    [⟨some 0, none⟩, ⟨some 0, none⟩] rfl
  exact ⟨h.1, h.2.1⟩

/-! ### Claim C7 -/

/-- Claim C7: when the adapter cannot merge a mixed-resolution group (the
h3o contract, stated as a hypothesis on the adapter) and some supplied group
holds two cells of different resolutions, a grouped-mode render fails as a
whole — `cells_to_features` propagates the adapter error (the source's
`expect` aborts there) and `generate_html` produces no document. -/
theorem C7_mixed_resolution_fails (a : Adapter) (v : H3oViewer)
    (tmpl : String) (ser : List Feature → String)
    (hadapter : ∀ g : List CellIndex,
      (∃ c ∈ g, ∃ c' ∈ g, a.resolution c ≠ a.resolution c') →
      ∃ e, a.groupGeo g = .error e)
    (hmode : v.settings.separate_cells = false ∨ v.cell_groups.length ≠ 1)
    (hmixed : ∃ g ∈ v.cell_groups, ∃ c ∈ g, ∃ c' ∈ g,
      a.resolution c ≠ a.resolution c') :
    (∃ e, cells_to_features a v = .error e) ∧
    ∃ e, generate_html a tmpl ser v = .error e := by
  rcases hmixed with ⟨g, hgmem, c, hc, c', hc', hne⟩
  have hfail : ∃ e, a.groupGeo (sortDedup g) = .error e :=
    hadapter (sortDedup g)
      ⟨c, mem_sortDedup.2 hc, c', mem_sortDedup.2 hc', hne⟩
  rcases collectFeatures_error a v.cell_groups ⟨g, hgmem, hfail⟩ with ⟨e, he⟩
  have hct : cells_to_features a v = .error e := by
    rw [grouped_branch a v hmode, he]
  refine ⟨⟨e, hct⟩, e, ?_⟩
  unfold generate_html
  rw [hct]

theorem homogeneous_all_eq {res : CellIndex → Nat} {g : List CellIndex}
    (h : homogeneous res g = true) :
    ∀ x ∈ g, ∀ y ∈ g, res x = res y := by
  cases g with
  | nil => simp
  | cons c cs =>
      intro x hx y hy
      have hall : ∀ d ∈ cs, res d = res c := by
        simpa [homogeneous] using h
      have hx' : res x = res c := by
        rcases List.mem_cons.1 hx with rfl | hx
        · rfl
        · exact hall x hx
      have hy' : res y = res c := by
        rcases List.mem_cons.1 hy with rfl | hy
        · rfl
        · exact hall y hy
      rw [hx', hy']

theorem mixedResAdapter_mixed_fails :
    ∀ g : List CellIndex,
    (∃ c ∈ g, ∃ c' ∈ g,
      mixedResAdapter.resolution c ≠ mixedResAdapter.resolution c') →
    ∃ e, mixedResAdapter.groupGeo g = .error e := by
  intro g hg
  rcases hg with ⟨c, hc, c', hc', hne⟩
  cases hhom : homogeneous (fun c => c) g with
  | false => exact ⟨"mixed resolutions", by simp [mixedResAdapter, hhom]⟩
  | true =>
      exact absurd (homogeneous_all_eq hhom c hc c' hc')
        (by simpa [mixedResAdapter] using hne)

theorem C7_mixed_resolution_fails_witness :
    (∃ e, cells_to_features mixedResAdapter mixedViewer = .error e) ∧
    ∃ e, generate_html mixedResAdapter "T" (fun _ => "") mixedViewer =
      .error e :=
  C7_mixed_resolution_fails mixedResAdapter mixedViewer "T" (fun _ => "")
    mixedResAdapter_mixed_fails
    (Or.inl rfl)
    ⟨[0, 1], by simp [mixedViewer], 0, by simp, 1, by simp,
      by simp [mixedResAdapter]⟩

/-! ### Claim C9 -/

/-- Claim C9: in separate-cells mode every produced feature's property map
is present and holds the `"label"` key (cell features always, and the edge
features the mode may add); with both display flags off the cell label is
the empty string, so the key is still present. -/
theorem C9_label_key_present (a : Adapter) (v : H3oViewer)
    (hsep : v.settings.separate_cells = true)
    (hlen : v.cell_groups.length = 1) :
    (∀ fs, cells_to_features a v = .ok fs →
      ∀ f ∈ fs, ∃ props, f.properties = some props ∧
        ∃ lv, ("label", lv) ∈ props) ∧
    (v.settings.cell_resolutions = false → v.settings.cell_indexes = false →
      ∀ cell, get_cell_properties a v.settings cell = [("label", "")]) := by
  constructor
  · intro fs h f hf
    rw [separate_branch a v hsep hlen] at h
    have hfs : fs = ((v.cell_groups.headD []).foldl
        (separateStep a v.settings) ([], [])).1 := by
      injection h with h'
      exact h'.symm
    subst hfs
    rcases sep_foldl_mem a v.settings (v.cell_groups.headD []) ([], []) f hf
      with h | h | h
    · exact absurd h (by simp)
    · rcases h with ⟨c, rfl⟩
      rcases get_cell_properties_shape a v.settings c with ⟨val, hval⟩
      exact ⟨get_cell_properties a v.settings c, rfl, val,
        by rw [hval]; exact List.mem_singleton.2 rfl⟩
    · rcases h with ⟨e, rfl⟩
      rcases get_edge_properties_shape a e with ⟨val, hval⟩
      exact ⟨get_edge_properties a e, rfl, val,
        by rw [hval]; exact List.mem_singleton.2 rfl⟩
  · intro h1 h2 cell
    simp [get_cell_properties, h1, h2]

theorem C9_label_key_present_witness :
    get_cell_properties (constAdapter 0) (for_cells [3]).settings 3 =
      [("label", "")] :=
  (C9_label_key_present (constAdapter 0) (for_cells [3]) rfl rfl).2 rfl rfl 3

/-! ### Claim C10 -/

/-- Claim C10: a viewer built over zero cell groups renders successfully to
a document embedding the empty feature collection whatever the settings (the
separate-cells branch needs exactly one group, so the grouped branch maps
over no groups); and `for_cells` over no cells yields one empty group that
the separate-cells branch turns into the empty collection. -/
theorem C10_empty_inputs (a : Adapter) (s : Settings)
    (cs : List (LatLng × Nat)) (tmpl : String)
    (ser : List Feature → String) :
    cells_to_features a
      { cell_groups := [], settings := s, circles := cs } = .ok [] ∧
    generate_html a tmpl ser
      { cell_groups := [], settings := s, circles := cs } =
      .ok ((tmpl.replace "\x7b\x7bgeojson\x7d\x7d" (ser [])).replace
        "\x7b\x7bcircles\x7d\x7d"
        (generate_circles
          { cell_groups := [], settings := s, circles := cs })) ∧
    (for_cells []).settings.separate_cells = true ∧
    (for_cells []).cell_groups = [[]] ∧
    cells_to_features a (for_cells []) = .ok [] := by
  have h1 : cells_to_features a
      { cell_groups := [], settings := s, circles := cs } = .ok [] := by
    rw [grouped_branch a _ (Or.inr (by simp))]
    rfl
  refine ⟨h1, ?_, rfl, rfl, rfl⟩
  unfold generate_html
  rw [h1]

end H3oViewerModel
